import Mathlib

/-!
Shallow embedding of the quota-aware scheduling engine of the
Nigerian-Event-Pipeline repository: quota ledger (src/utils/quota_manager.py),
allocator (distribute_daily_quota), response cache (src/utils/api_cache.py),
query selector (src/utils/prioritized_queries.py), dedup/ingest gate
(src/Event-Pipeline/database/db_manager.py) and the comprehensive run loop
(src/Event-Pipeline/enhanced_scheduler.py).

Modelling conventions:
* Machine integers are Nat; Python int division by a positive constant is Nat
  division.  The one float in scope, the scale factor of
  distribute_daily_quota, is modelled by exact rational arithmetic
  (int(share * (remaining / total)) becomes share * remaining / total in Nat);
  for every concrete value appearing in a theorem below the float and the
  exact computation agree.
* Calendar timestamps are a pair of a day ordinal and a within-day instant;
  the ledger compares day ordinals only, mirroring datetime.date() comparison.
* File I/O results are passed in explicitly: a load receives an
  Except value describing what the durable store returned, mirroring the
  try/except blocks of the source.
* md5 content hashes are modelled as the hashed content itself (collision
  freedom), which is faithful for the dedup and cache-key arguments made here.
-/

namespace EventPipeline

/-! ### Quota ledger: src/utils/quota_manager.py -/

/-- QuotaManager.daily_limit (Google free tier limit). -/
def dailyLimit : Nat := 100

/-- QuotaManager.safety_buffer (calls kept as buffer). -/
def safetyBuffer : Nat := 10

/-- QuotaManager.usable_quota = daily_limit - safety_buffer. -/
def usableQuota : Nat := dailyLimit - safetyBuffer

/-- One entry of the query_history list appended by record_api_call. -/
structure HistoryEntry where
  timestamp : Nat
  query : String
  qtype : String
deriving Repr, DecidableEq

/-- The JSON blob persisted in quota_tracking.json: date, calls_used,
calls_remaining, query_history.  The date is a calendar day ordinal
(record_api_call and load_quota_data compare dates by day only). -/
structure QuotaData where
  date : Nat
  callsUsed : Nat
  callsRemaining : Nat
  queryHistory : List HistoryEntry
deriving Repr, DecidableEq

/-- QuotaManager.reset_daily_quota: fresh state for a new day. -/
def resetDailyQuota (today : Nat) : QuotaData :=
  { date := today
    callsUsed := 0
    callsRemaining := usableQuota
    queryHistory := [] }

/-- Failure modes of the durable store, passed in explicitly. -/
inductive IOErr where
  | diskUnavailable
  | corrupt
deriving Repr, DecidableEq

/-- QuotaManager.load_quota_data.  The readResult argument is what the durable
store produced: error (an exception while reading or parsing), ok none (the
file does not exist), or ok (some d) (a parsed state).  The source catches
every exception, logs it, and falls back to reset_daily_quota; a state from a
prior day is likewise replaced by a fresh reset. -/
def loadQuotaData (readResult : Except IOErr (Option QuotaData)) (today : Nat) :
    QuotaData :=
  match readResult with
  | .error _ => resetDailyQuota today
  | .ok none => resetDailyQuota today
  | .ok (some d) => if d.date = today then d else resetDailyQuota today

/-- QuotaManager.record_api_call on an in-memory state (same-day, I/O
successful, so load returns the previously saved state): returns False and
leaves the state untouched when calls_remaining <= 0, otherwise increments
calls_used, decrements calls_remaining and appends one history entry. -/
def recordApiCall (s : QuotaData) (q : String) (t : String) (now : Nat) :
    Bool × QuotaData :=
  if s.callsRemaining ≤ 0 then (false, s)
  else
    (true,
      { s with
        callsUsed := s.callsUsed + 1
        callsRemaining := s.callsRemaining - 1
        queryHistory := s.queryHistory ++ [⟨now, q, t⟩] })

/-- QuotaManager.save_quota_data swallows every write exception (logged and
ignored), so record_api_call returns the same answer and in-memory state
whether or not the write succeeded.  The writeResult argument is discarded
exactly as the source discards the exception. -/
def recordApiCallPersist (writeResult : Except IOErr Unit) (s : QuotaData)
    (q : String) (t : String) (now : Nat) : Bool × QuotaData :=
  match writeResult with
  | .error _ => recordApiCall s q t now
  | .ok _ => recordApiCall s q t now

/-- A sequence of record_api_call invocations within one day, dropping the
returned booleans (state threading of the load-mutate-save cycle). -/
def runRecords (calls : List (String × String × Nat)) (s : QuotaData) :
    QuotaData :=
  match calls with
  | [] => s
  | (q, t, now) :: rest => runRecords rest (recordApiCall s q t now).2

/-- The dictionary returned by QuotaManager.get_quota_status (the float
percentage_used field is omitted; it is derived from calls_used). -/
structure QuotaStatus where
  callsUsed : Nat
  callsRemaining : Nat
  canMakeCalls : Bool
deriving Repr, DecidableEq

/-- QuotaManager.get_quota_status: load (with day-rollover check) then read. -/
def getQuotaStatus (readResult : Except IOErr (Option QuotaData)) (today : Nat) :
    QuotaStatus :=
  let d := loadQuotaData readResult today
  { callsUsed := d.callsUsed
    callsRemaining := d.callsRemaining
    canMakeCalls := decide (0 < d.callsRemaining) }

/-- QuotaManager.can_make_calls. -/
def canMakeCalls (readResult : Except IOErr (Option QuotaData)) (today : Nat)
    (numCalls : Nat) : Bool :=
  decide (numCalls ≤ (getQuotaStatus readResult today).callsRemaining)

/-! ### Allocator: QuotaManager.distribute_daily_quota -/

/-- The allocation dictionary of distribute_daily_quota. -/
structure Allocation where
  comprehensive : Nat
  quick : Nat
  social : Nat
  emergency : Nat
deriving Repr, DecidableEq

/-- QuotaManager.distribute_daily_quota as a function of calls_remaining.
Base shares are max(1, r/3), max(1, r/6), max(1, r/8) and max(5, r/10); if
their sum exceeds r every share is rescaled to max(1, int(share * r / total)).
The float multiplication int(share * scale) of the source is modelled as the
exact floor share * r / total. -/
def distributeDailyQuota (remaining : Nat) : Allocation :=
  let base : Allocation :=
    { comprehensive := max 1 (remaining / 3)
      quick := max 1 (remaining / 6)
      social := max 1 (remaining / 8)
      emergency := max 5 (remaining / 10) }
  let total := base.comprehensive + base.quick + base.social + base.emergency
  if remaining < total then
    { comprehensive := max 1 (base.comprehensive * remaining / total)
      quick := max 1 (base.quick * remaining / total)
      social := max 1 (base.social * remaining / total)
      emergency := max 1 (base.emergency * remaining / total) }
  else base

/-! ### Ledger lemmas -/

/-- One record_api_call preserves the daily sum invariant. -/
lemma recordApiCall_inv (s : QuotaData) (q t : String) (now : Nat)
    (h : s.callsUsed + s.callsRemaining = usableQuota) :
    (recordApiCall s q t now).2.callsUsed
      + (recordApiCall s q t now).2.callsRemaining = usableQuota := by
  by_cases h0 : s.callsRemaining ≤ 0
  · simp [recordApiCall, h0, h]
  · simp only [recordApiCall, h0, if_false]
    omega

/-- One record_api_call preserves the history-length invariant. -/
lemma recordApiCall_hist (s : QuotaData) (q t : String) (now : Nat)
    (h : s.queryHistory.length = s.callsUsed) :
    (recordApiCall s q t now).2.queryHistory.length
      = (recordApiCall s q t now).2.callsUsed := by
  unfold recordApiCall
  by_cases h0 : s.callsRemaining ≤ 0
  · simp [h0, h]
  · simp [h0, h]

/-- Both invariants are preserved along any call sequence. -/
lemma runRecords_inv (calls : List (String × String × Nat)) (s : QuotaData)
    (h : s.callsUsed + s.callsRemaining = usableQuota)
    (hh : s.queryHistory.length = s.callsUsed) :
    (runRecords calls s).callsUsed + (runRecords calls s).callsRemaining
        = usableQuota
      ∧ (runRecords calls s).queryHistory.length
        = (runRecords calls s).callsUsed := by
  induction calls generalizing s with
  | nil => exact ⟨h, hh⟩
  | cons c rest ih =>
    obtain ⟨q, t, now⟩ := c
    exact ih (recordApiCall s q t now).2 (recordApiCall_inv s q t now h)
      (recordApiCall_hist s q t now hh)

/-- C1: starting from a fresh daily reset, after every sequence of record
calls within the same day callsUsed + callsRemaining = usableQuota (every
prefix of a longer sequence is itself such a sequence, so the invariant holds
after each call); and whenever callsRemaining has reached 0, the next record
call returns false and leaves the whole state, history included, unchanged. -/
theorem quota_ledger_invariant (today : Nat)
    (calls : List (String × String × Nat)) (s : QuotaData) (q t : String)
    (now : Nat) (hs : s.callsRemaining = 0) :
    (runRecords calls (resetDailyQuota today)).callsUsed
        + (runRecords calls (resetDailyQuota today)).callsRemaining
        = usableQuota
      ∧ recordApiCall s q t now = (false, s) := by
  constructor
  · exact (runRecords_inv calls (resetDailyQuota today) (by simp [resetDailyQuota])
      (by simp [resetDailyQuota])).1
  · simp [recordApiCall, hs]

/-- Witness for quota_ledger_invariant at a concrete exhausted state. -/
theorem quota_ledger_invariant_witness :
    (⟨0, 90, 0, []⟩ : QuotaData).callsRemaining = 0
      ∧ ((runRecords [("q1", "search", 5)] (resetDailyQuota 0)).callsUsed
          + (runRecords [("q1", "search", 5)] (resetDailyQuota 0)).callsRemaining
          = usableQuota
        ∧ recordApiCall ⟨0, 90, 0, []⟩ "q2" "search" 6
          = (false, ⟨0, 90, 0, []⟩)) :=
  ⟨rfl, quota_ledger_invariant 0 [("q1", "search", 5)] ⟨0, 90, 0, []⟩
    "q2" "search" 6 rfl⟩

/-- C10: starting from a fresh daily reset, after any sequence of record
calls within the same day the length of query_history equals callsUsed: each
successful record appends exactly one entry, a failed one appends none. -/
theorem quota_history_length (today : Nat)
    (calls : List (String × String × Nat)) :
    (runRecords calls (resetDailyQuota today)).queryHistory.length
      = (runRecords calls (resetDailyQuota today)).callsUsed :=
  (runRecords_inv calls (resetDailyQuota today) (by simp [resetDailyQuota])
    (by simp [resetDailyQuota])).2

/-- C9: a persisted state from a prior calendar day (any callsUsed) is
discarded on load, before any read or write proceeds: load returns exactly
the reset state (callsUsed 0, callsRemaining usableQuota, empty history,
dated today), the comparison looking at the day ordinal only, and the next
status call therefore reports callsUsed = 0 and callsRemaining = usableQuota
with calls permitted. -/
theorem quota_day_rollover (d : QuotaData) (today : Nat)
    (hday : d.date ≠ today) :
    loadQuotaData (.ok (some d)) today = resetDailyQuota today
      ∧ getQuotaStatus (.ok (some d)) today
        = { callsUsed := 0, callsRemaining := usableQuota, canMakeCalls := true }
      ∧ (loadQuotaData (.ok (some d)) today).queryHistory = [] := by
  have hload : loadQuotaData (.ok (some d)) today = resetDailyQuota today := by
    simp [loadQuotaData, hday]
  refine ⟨hload, ?_, by simp [hload, resetDailyQuota]⟩
  simp [getQuotaStatus, hload, resetDailyQuota, usableQuota, dailyLimit,
    safetyBuffer]

/-- Witness for quota_day_rollover: yesterday's state with 90 calls used. -/
theorem quota_day_rollover_witness :
    (⟨0, 90, 0, []⟩ : QuotaData).date ≠ 1
      ∧ (loadQuotaData (.ok (some ⟨0, 90, 0, []⟩)) 1 = resetDailyQuota 1
        ∧ getQuotaStatus (.ok (some ⟨0, 90, 0, []⟩)) 1
          = { callsUsed := 0, callsRemaining := usableQuota,
              canMakeCalls := true }
        ∧ (loadQuotaData (.ok (some ⟨0, 90, 0, []⟩)) 1).queryHistory = []) :=
  ⟨by decide, quota_day_rollover ⟨0, 90, 0, []⟩ 1 (by decide)⟩

/-- C4 counterexample: with the durable store failing (disk unavailable), the
status operation neither propagates a failure nor aborts: it succeeds and
reports a full fresh quota (callsUsed 0, callsRemaining 90, calls allowed),
i.e. the run continues under exactly the assumption the claim rules out. -/
theorem quota_io_failure_not_fatal_counterexample :
    getQuotaStatus (.error .diskUnavailable) 0
        = { callsUsed := 0, callsRemaining := 90, canMakeCalls := true }
      ∧ canMakeCalls (.error .diskUnavailable) 0 1 = true := by
  constructor <;> rfl

/-- C4 amended: persistence I/O failure is swallowed, not propagated.  A read
failure during load is caught and logged and the ledger is silently reset to
a fresh full-quota state, so status reports the whole usable quota as
available; a write failure during save is caught and logged and
record_api_call returns the same answer and state as on a successful write. -/
theorem quota_io_failure_swallowed (e : IOErr) (today : Nat) (w : Except IOErr Unit)
    (s : QuotaData) (q t : String) (now : Nat) :
    loadQuotaData (.error e) today = resetDailyQuota today
      ∧ (loadQuotaData (.error e) today).callsRemaining = usableQuota
      ∧ getQuotaStatus (.error e) today
        = { callsUsed := 0, callsRemaining := usableQuota, canMakeCalls := true }
      ∧ recordApiCallPersist w s q t now = recordApiCall s q t now := by
  refine ⟨rfl, rfl, ?_, ?_⟩
  · simp [getQuotaStatus, loadQuotaData, resetDailyQuota, usableQuota,
      dailyLimit, safetyBuffer]
  · cases w <;> rfl

/-! ### Allocator theorems (claim C3) -/

/-- C3 counterexample: with callsRemaining = 0 the plan is not all-zero as the
claim states; the max(1, ...) floor applies after scaling by 0, so every run
kind is allocated 1 call (4 calls in total out of a remaining budget of 0). -/
theorem distribute_quota_zero_counterexample :
    distributeDailyQuota 0 = (⟨1, 1, 1, 1⟩ : Allocation)
      ∧ (distributeDailyQuota 0).comprehensive ≠ 0 := by
  constructor <;> decide

/-- C3 amended: the base shares are max(1, r/3) for comprehensive,
max(1, r/6) for quick, max(1, r/8) for social and max(5, r/10) for emergency.
When callsRemaining is 0 every share is 1, not 0 (the floor applies after
scaling by zero).  At remaining = 6 the base shares sum to 9 > 6 (the
emergency reserve alone is 5), so scaling does occur, yielding (1, 1, 1, 3).
Whenever the base shares sum to at most remaining, which holds for every
remaining of at least 50, they are returned unscaled. -/
theorem distribute_quota_amended (r : Nat) (hr : 50 ≤ r) :
    distributeDailyQuota 0 = (⟨1, 1, 1, 1⟩ : Allocation)
      ∧ distributeDailyQuota 6 = (⟨1, 1, 1, 3⟩ : Allocation)
      ∧ distributeDailyQuota r = (⟨r / 3, r / 6, r / 8, r / 10⟩ : Allocation) := by
  refine ⟨by decide, by decide, ?_⟩
  have h3 : max 1 (r / 3) = r / 3 := by omega
  have h6 : max 1 (r / 6) = r / 6 := by omega
  have h8 : max 1 (r / 8) = r / 8 := by omega
  have h10 : max 5 (r / 10) = r / 10 := by omega
  have hsum : ¬ r < r / 3 + r / 6 + r / 8 + r / 10 := by omega
  simp only [distributeDailyQuota, h3, h6, h8, h10]
  rw [if_neg hsum]

/-- Witness for distribute_quota_amended at remaining = 50. -/
theorem distribute_quota_amended_witness :
    (50 : Nat) ≤ 50
      ∧ (distributeDailyQuota 0 = (⟨1, 1, 1, 1⟩ : Allocation)
        ∧ distributeDailyQuota 6 = (⟨1, 1, 1, 3⟩ : Allocation)
        ∧ distributeDailyQuota 50
          = (⟨50 / 3, 50 / 6, 50 / 8, 50 / 10⟩ : Allocation)) :=
  ⟨by decide, distribute_quota_amended 50 (by decide)⟩

/-! ### Response cache: src/utils/api_cache.py

The cache is one JSON file per key under cache_dir; the key is derived from
(query, query_type), so the store is modelled as an association list from
that pair (md5 key derivation modelled as the pair itself).  A stored file is
either a well-formed entry carrying its creation timestamp and payload, or
malformed (unparseable JSON / missing timestamp), which APICache.get treats
as a miss and deletes.  Time is measured in hours, the unit of the configured
cache durations. -/

/-- A stored cache file: parsed entry or corrupt content. -/
inductive CacheEntry (α : Type) where
  | valid (timestamp : Nat) (payload : α)
  | malformed
deriving Repr, DecidableEq

/-- The cache directory: one entry per (query, query_type) key. -/
def CacheStore (α : Type) : Type := List ((String × String) × CacheEntry α)

/-- APICache.cache_durations lookup with default 2 hours. -/
def cacheDurations (queryType : String) : Nat :=
  if queryType = "search" then 2
  else if queryType = "social" then 4
  else if queryType = "news" then 1
  else 2

/-- Physical removal of a key (os.remove of the cache file). -/
def cacheRemove (k : String × String) (st : CacheStore α) : CacheStore α :=
  List.filter (fun e => !(e.1 == k)) st

/-- APICache.set: write the cache file for the key, replacing any previous
content. -/
def cacheSet (now : Nat) (q t : String) (p : α) (st : CacheStore α) :
    CacheStore α :=
  ((q, t), CacheEntry.valid now p) :: cacheRemove (q, t) st

/-- APICache.get: a miss when no file exists; a malformed file is deleted and
a miss; a well-formed entry is returned iff now - timestamp < duration,
otherwise the stale file is deleted and the read is a miss.  Returns the
payload (if any) and the store after the read's side effects. -/
def cacheGet (now : Nat) (q t : String) (st : CacheStore α) :
    Option α × CacheStore α :=
  match List.lookup (q, t) st with
  | none => (none, st)
  | some CacheEntry.malformed => (none, cacheRemove (q, t) st)
  | some (CacheEntry.valid ts p) =>
      if now - ts < cacheDurations t then (some p, st)
      else (none, cacheRemove (q, t) st)

/-- Every configured cache duration is positive. -/
lemma cacheDurations_pos (t : String) : 0 < cacheDurations t := by
  unfold cacheDurations
  repeat' split
  all_goals omega

/-- C5: (i) set followed immediately by get returns the payload just stored;
(ii) get is a miss, with no side effect, when no entry exists for the key;
(iii) when the stored entry's age is at least the duration for its kind, get
is a miss and the stale entry is physically deleted; (iv) a malformed stored
entry is likewise a miss and is deleted. -/
theorem api_cache_get_spec {α : Type} (q t : String) (p p2 : α) (now ts : Nat)
    (st0 st1 st2 st3 : CacheStore α)
    (h1 : List.lookup (q, t) st1 = none)
    (h2 : List.lookup (q, t) st2 = some (CacheEntry.valid ts p2))
    (h3 : cacheDurations t ≤ now - ts)
    (h4 : List.lookup (q, t) st3 = some CacheEntry.malformed) :
    cacheGet now q t (cacheSet now q t p st0) = (some p, cacheSet now q t p st0)
      ∧ cacheGet now q t st1 = (none, st1)
      ∧ cacheGet now q t st2 = (none, cacheRemove (q, t) st2)
      ∧ cacheGet now q t st3 = (none, cacheRemove (q, t) st3) := by
  refine ⟨?_, ?_, ?_, ?_⟩
  · have hpos := cacheDurations_pos t
    simp only [cacheGet, cacheSet, List.lookup, beq_self_eq_true,
      Nat.sub_self]
    rw [if_pos hpos]
  · simp [cacheGet, h1]
  · have hstale : ¬ now - ts < cacheDurations t := by omega
    simp [cacheGet, h2, hstale]
  · simp [cacheGet, h4]

/-- Witness for api_cache_get_spec: a search entry stored at hour 0 read at
hour 2 (its 2-hour TTL elapsed), an empty store, and a corrupt entry. -/
theorem api_cache_get_spec_witness :
    List.lookup (("q", "search") : String × String) ([] : CacheStore Nat) = none
      ∧ List.lookup ("q", "search")
          ([(("q", "search"), CacheEntry.valid 0 7)] : CacheStore Nat)
          = some (CacheEntry.valid 0 7)
      ∧ cacheDurations "search" ≤ 2 - 0
      ∧ List.lookup ("q", "search")
          ([(("q", "search"), CacheEntry.malformed)] : CacheStore Nat)
          = some CacheEntry.malformed
      ∧ (cacheGet 2 "q" "search" (cacheSet 2 "q" "search" 9 ([] : CacheStore Nat))
          = (some 9, cacheSet 2 "q" "search" 9 [])
        ∧ cacheGet 2 "q" "search" ([] : CacheStore Nat) = (none, [])
        ∧ cacheGet 2 "q" "search"
            ([(("q", "search"), CacheEntry.valid 0 7)] : CacheStore Nat)
          = (none, cacheRemove ("q", "search")
              [(("q", "search"), CacheEntry.valid 0 7)])
        ∧ cacheGet 2 "q" "search"
            ([(("q", "search"), CacheEntry.malformed)] : CacheStore Nat)
          = (none, cacheRemove ("q", "search")
              [(("q", "search"), CacheEntry.malformed)])) :=
  ⟨rfl, rfl, by decide, rfl,
    api_cache_get_spec "q" "search" 9 7 2 0 [] []
      [(("q", "search"), CacheEntry.valid 0 7)]
      [(("q", "search"), CacheEntry.malformed)]
      rfl rfl (by decide) rfl⟩

/-! ### Dedup/ingest gate: src/Event-Pipeline/database/db_manager.py -/

/-- The event dictionary fields persisted by DatabaseManager.save_events. -/
structure EventRecord where
  title : String
  description : String
  url : String
  source : String
  location : String
  eventDate : String
  category : String
  imageUrl : String
  price : String
  organizer : String
deriving Repr, DecidableEq

/-- DatabaseManager.generate_event_hash: md5 of title + url + event_date,
modelled as the concatenated content itself. -/
def generateEventHash (e : EventRecord) : String :=
  e.title ++ e.url ++ e.eventDate

/-- DatabaseManager.save_events over the set of already-stored fingerprints.
Each batch element carries a flag saying whether its INSERT raises a storage
error (sqlite3.Error), which the source catches, logs and skips, continuing
with the rest of the batch.  A record whose fingerprint is already present is
skipped silently; otherwise (and with no storage error) it is inserted and
counted.  Returns (saved_count, resulting fingerprint store); the SELECT
inside the loop sees the connection's own earlier uncommitted inserts, hence
the store is threaded through the batch. -/
def saveEvents (events : List (EventRecord × Bool)) (store : List String) :
    Nat × List String :=
  match events with
  | [] => (0, store)
  | (e, insertErr) :: rest =>
    let h := generateEventHash e
    if h ∈ store then saveEvents rest store
    else if insertErr then saveEvents rest store
    else
      let r := saveEvents rest (h :: store)
      (r.1 + 1, r.2)

/-- A batch of already-stored fingerprints accepts nothing and changes
nothing. -/
lemma saveEvents_all_dup (events : List (EventRecord × Bool))
    (store : List String)
    (hmem : ∀ eb ∈ events, generateEventHash eb.1 ∈ store) :
    saveEvents events store = (0, store) := by
  induction events with
  | nil => rfl
  | cons eb rest ih =>
    obtain ⟨e, err⟩ := eb
    have he : generateEventHash e ∈ store := hmem (e, err) (by simp)
    simp only [saveEvents, if_pos he]
    exact ih fun x hx => hmem x (by simp [hx])

/-- C6: (i) ingesting two structurally identical copies of a fresh record in
one batch accepts exactly 1 and stores its fingerprint once; (ii) a later
batch holding the same record accepts 0 and leaves the store unchanged;
(iii) more generally any batch all of whose fingerprints are already stored
accepts 0 and leaves the store unchanged; (iv) a storage error on one record
is counted as not accepted without aborting the rest of the batch: a fresh
record whose insert errs is skipped while the following fresh record is still
accepted. -/
theorem save_events_dedup (A B : EventRecord) (store : List String)
    (batch : List (EventRecord × Bool))
    (hA : generateEventHash A ∉ store)
    (hB : generateEventHash B ∉ store)
    (hbatch : ∀ eb ∈ batch, generateEventHash eb.1 ∈ store) :
    saveEvents [(A, false), (A, false)] store
        = (1, generateEventHash A :: store)
      ∧ saveEvents [(A, false)] (generateEventHash A :: store)
        = (0, generateEventHash A :: store)
      ∧ saveEvents batch store = (0, store)
      ∧ saveEvents [(A, true), (B, false)] store
        = (1, generateEventHash B :: store) := by
  refine ⟨?_, ?_, saveEvents_all_dup batch store hbatch, ?_⟩
  · simp [saveEvents, hA]
  · simp [saveEvents]
  · simp [saveEvents, hA, hB]

/-- Witness for save_events_dedup: two concrete records against a store
already holding one unrelated fingerprint. -/
theorem save_events_dedup_witness :
    generateEventHash ⟨"a", "", "", "", "", "", "", "", "", ""⟩ ∉ ["x"]
      ∧ generateEventHash ⟨"b", "", "", "", "", "", "", "", "", ""⟩ ∉ ["x"]
      ∧ (∀ eb ∈ ([(⟨"x", "", "", "", "", "", "", "", "", ""⟩, false)] :
            List (EventRecord × Bool)),
          generateEventHash eb.1 ∈ ["x"])
      ∧ (saveEvents [(⟨"a", "", "", "", "", "", "", "", "", ""⟩, false),
            (⟨"a", "", "", "", "", "", "", "", "", ""⟩, false)] ["x"]
          = (1, generateEventHash ⟨"a", "", "", "", "", "", "", "", "", ""⟩
              :: ["x"])
        ∧ saveEvents [(⟨"a", "", "", "", "", "", "", "", "", ""⟩, false)]
            (generateEventHash ⟨"a", "", "", "", "", "", "", "", "", ""⟩ :: ["x"])
          = (0, generateEventHash ⟨"a", "", "", "", "", "", "", "", "", ""⟩
              :: ["x"])
        ∧ saveEvents [(⟨"x", "", "", "", "", "", "", "", "", ""⟩, false)] ["x"]
          = (0, ["x"])
        ∧ saveEvents [(⟨"a", "", "", "", "", "", "", "", "", ""⟩, true),
            (⟨"b", "", "", "", "", "", "", "", "", ""⟩, false)] ["x"]
          = (1, generateEventHash ⟨"b", "", "", "", "", "", "", "", "", ""⟩
              :: ["x"])) :=
  ⟨by decide, by decide, by decide,
    save_events_dedup ⟨"a", "", "", "", "", "", "", "", "", ""⟩
      ⟨"b", "", "", "", "", "", "", "", "", ""⟩ ["x"]
      [(⟨"x", "", "", "", "", "", "", "", "", ""⟩, false)]
      (by decide) (by decide) (by decide)⟩

/-! ### Selector: src/utils/prioritized_queries.py

The catalog entries are dictionaries with query, priority and type fields.
get_quick_queries and get_comprehensive_queries are modelled over an
arbitrary catalog (the source's catalog is a fixed literal of this shape);
Python list slicing l[:n], whose bound may be negative in
get_quick_queries, is modelled by pyTakeSlice. -/

/-- One catalog entry (a query dictionary of the source). -/
structure QueryDescriptor where
  query : String
  priority : String
  qtype : String
deriving Repr, DecidableEq

/-- Python l[:n] for an Int bound: a nonnegative bound takes n from the
front, a negative bound drops the last -n elements. -/
def pyTakeSlice (l : List α) (n : Int) : List α :=
  if 0 ≤ n then l.take n.toNat else l.take (l.length - (-n).toNat)

/-- PrioritizedQueryManager.get_quick_queries over the urgent and high tiers:
(urgent + high[:max_calls - len(urgent)])[:max_calls]. -/
def getQuickQueries (urgent high : List QueryDescriptor) (maxCalls : Nat) :
    List QueryDescriptor :=
  (urgent ++ pyTakeSlice high ((maxCalls : Int) - urgent.length)).take maxCalls

/-- C8: the quick selection equals the first maxCalls urgent entries followed
by the first maxCalls - len(urgent) high entries, both in catalog order — so
it contains only urgent- and high-tier entries, every urgent entry before any
high entry, and when the urgent tier alone has at least maxCalls entries the
result is the first maxCalls urgent entries; in particular with 3 urgent and
2 high entries and maxCalls = 4 it is the 3 urgent entries plus the first
high entry. -/
theorem quick_selection (u h : List QueryDescriptor) (m : Nat)
    (a b c d e : QueryDescriptor) :
    getQuickQueries u h m = u.take m ++ h.take (m - u.length)
      ∧ getQuickQueries [a, b, c] [d, e] 4 = [a, b, c, d] := by
  have key : ∀ (u h : List QueryDescriptor) (m : Nat),
      getQuickQueries u h m = u.take m ++ h.take (m - u.length) := by
    intro u h m
    unfold getQuickQueries
    rw [List.take_append_eq_append_take]
    congr 1
    rcases le_or_lt m u.length with hle | hlt
    · simp [Nat.sub_eq_zero_of_le hle]
    · have hpos : (0 : Int) ≤ (m : Int) - u.length := by omega
      have htn : ((m : Int) - (u.length : Int)).toNat = m - u.length := by
        omega
      simp [pyTakeSlice, hpos, htn, List.take_take]
  refine ⟨key u h m, ?_⟩
  rw [key [a, b, c] [d, e] 4]
  simp

/-- The priority weight table of get_comprehensive_queries
(src/utils/prioritized_queries.py), with the source's .get(priority, 0)
default for unknown classes. -/
def priorityWeightsComprehensive (p : String) : Nat :=
  if p = "urgent" then 6
  else if p = "high" then 5
  else if p = "media" then 4
  else if p = "medium" then 3
  else if p = "social" then 2
  else if p = "low" then 1
  else 0

/-- Stable insertion step for a descending sort by weight: the new element
goes in front of the first element whose weight does not exceed its own, so
among equal weights earlier list positions stay first. -/
def insertDesc (w : α → Nat) (a : α) : List α → List α
  | [] => [a]
  | b :: l => if w b ≤ w a then a :: b :: l else b :: insertDesc w a l

/-- Stable descending sort by weight.  Python's sorted(key, reverse=True) is
the stable descending sort for the key, and the stable sort for a given
total preorder is unique, so this insertion sort computes exactly what the
source's sorted(...) call returns. -/
def sortDesc (w : α → Nat) : List α → List α
  | [] => []
  | a :: l => insertDesc w a (sortDesc w l)

/-- PrioritizedQueryManager.get_comprehensive_queries: sort the catalog by
descending priority weight (stable) and take the first max_calls entries. -/
def getComprehensiveQueries (catalog : List QueryDescriptor) (maxCalls : Nat) :
    List QueryDescriptor :=
  (sortDesc (fun q => priorityWeightsComprehensive q.priority) catalog).take
    maxCalls

/-- Concatenation of the filter blocks of l for the weights vs, in order. -/
def weightBlocks (w : α → Nat) (vs : List Nat) (l : List α) : List α :=
  (vs.map fun v => l.filter fun a => w a == v).flatten

/-- Unfolding equation for weightBlocks. -/
lemma weightBlocks_cons (w : α → Nat) (v : Nat) (vs : List Nat) (l : List α) :
    weightBlocks w (v :: vs) l
      = (l.filter fun a => w a == v) ++ weightBlocks w vs l := by
  simp [weightBlocks]

/-- The blocks of the empty list are empty. -/
lemma weightBlocks_nil (w : α → Nat) : ∀ vs, weightBlocks w vs ([] : List α) = []
  | [] => rfl
  | v :: vs => by simp [weightBlocks_cons, weightBlocks_nil w vs]

/-- Inserting below nothing heavier: when every element weighs at most a,
the insertion puts a in front. -/
lemma insertDesc_front (w : α → Nat) (a : α) (m : List α)
    (hm : ∀ b ∈ m, w b ≤ w a) : insertDesc w a m = a :: m := by
  cases m with
  | nil => rfl
  | cons b l => simp [insertDesc, hm b (by simp)]

/-- Insertion passes over a block of strictly heavier elements. -/
lemma insertDesc_append_gt (w : α → Nat) (a : α) (m1 m2 : List α)
    (hm1 : ∀ b ∈ m1, w a < w b) :
    insertDesc w a (m1 ++ m2) = m1 ++ insertDesc w a m2 := by
  induction m1 with
  | nil => rfl
  | cons b l ih =>
    have hb : ¬ w b ≤ w a := not_le.mpr (hm1 b (by simp))
    simp only [List.cons_append, insertDesc, if_neg hb, List.append_eq,
      ih fun x hx => hm1 x (by simp [hx])]

/-- Every element of the blocks has its weight among the block values. -/
lemma mem_weightBlocks (w : α → Nat) (vs : List Nat) (l : List α) (b : α)
    (hb : b ∈ weightBlocks w vs l) : w b ∈ vs := by
  simp only [weightBlocks, List.mem_flatten, List.mem_map] at hb
  obtain ⟨m, ⟨v, hv, rfl⟩, hbm⟩ := hb
  have := (List.mem_filter.mp hbm).2
  simp only [beq_iff_eq] at this
  exact this ▸ hv

/-- Prepending an element whose weight is outside the block values leaves
the blocks unchanged. -/
lemma weightBlocks_cons_notmem (w : α → Nat) (vs : List Nat) (l : List α)
    (a : α) (ha : w a ∉ vs) :
    weightBlocks w vs (a :: l) = weightBlocks w vs l := by
  induction vs with
  | nil => rfl
  | cons v vs ih =>
    have hav : ¬ ((w a == v) = true) := by
      simp only [beq_iff_eq]
      exact fun hEq => ha (by simp [hEq])
    rw [weightBlocks_cons, weightBlocks_cons,
      @List.filter_cons_of_neg _ (fun x => w x == v) a l hav,
      ih fun hmem => ha (by simp [hmem])]

/-- Inserting an element into the blocks of l gives the blocks of a :: l,
provided the block values are strictly descending and cover the element. -/
lemma insertDesc_weightBlocks (w : α → Nat) (a : α) (vs : List Nat)
    (hs : vs.Sorted (· > ·)) (ha : w a ∈ vs) (l : List α) :
    insertDesc w a (weightBlocks w vs l) = weightBlocks w vs (a :: l) := by
  induction vs generalizing l with
  | nil => cases ha
  | cons v vs ih =>
    have hlt : ∀ x ∈ vs, x < v := fun x hx => (List.sorted_cons.mp hs).1 x hx
    have hs2 : vs.Sorted (· > ·) := (List.sorted_cons.mp hs).2
    rw [weightBlocks_cons]
    by_cases hav : w a = v
    · have hfront : ∀ b ∈ (l.filter fun x => w x == v) ++ weightBlocks w vs l,
          w b ≤ w a := by
        intro b hb
        rcases List.mem_append.mp hb with hb | hb
        · have := (List.mem_filter.mp hb).2
          simp only [beq_iff_eq] at this
          omega
        · have := hlt _ (mem_weightBlocks w vs l b hb)
          omega
      have hnot : w a ∉ vs := fun hmem => by
        have := hlt _ hmem; omega
      have hpos : (w a == v) = true := beq_iff_eq.mpr hav
      rw [insertDesc_front w a _ hfront, weightBlocks_cons,
        @List.filter_cons_of_pos _ (fun x => w x == v) a l hpos,
        weightBlocks_cons_notmem w vs l a hnot]
      simp
    · have ha2 : w a ∈ vs := by
        rcases List.mem_cons.mp ha with h | h
        · exact absurd h hav
        · exact h
      have hgt : ∀ b ∈ l.filter fun x => w x == v, w a < w b := by
        intro b hb
        have hbv := (List.mem_filter.mp hb).2
        simp only [beq_iff_eq] at hbv
        have := hlt _ ha2
        omega
      have hfa : ¬ ((w a == v) = true) := by
        simp only [beq_iff_eq]
        exact hav
      rw [insertDesc_append_gt w a _ _ hgt, ih hs2 ha2 l, weightBlocks_cons,
        @List.filter_cons_of_neg _ (fun x => w x == v) a l hfa]

/-- The stable descending sort equals the concatenation of the weight
blocks, for strictly descending block values covering the list. -/
lemma sortDesc_eq_weightBlocks (w : α → Nat) (vs : List Nat)
    (hs : vs.Sorted (· > ·)) (l : List α) (hl : ∀ a ∈ l, w a ∈ vs) :
    sortDesc w l = weightBlocks w vs l := by
  induction l with
  | nil => simp [sortDesc, weightBlocks_nil]
  | cons a l ih =>
    have ihl := ih fun x hx => hl x (by simp [hx])
    simp only [sortDesc, ihl]
    exact insertDesc_weightBlocks w a vs hs (hl a (by simp)) l

/-- C7: comprehensive selection is deterministic (two calls on an unchanged
catalog return identical output), and for a catalog whose entries carry the
six known priority classes it returns the first maxCalls entries of the
catalog regrouped in descending order of the fixed weight table
urgent > high > media > medium > social > low, ties within a tier keeping
catalog insertion order: the sorted catalog is exactly the urgent entries in
catalog order, then the high entries in catalog order, and so on. -/
theorem comprehensive_selection (catalog : List QueryDescriptor)
    (maxCalls : Nat)
    (hcat : ∀ q ∈ catalog, q.priority
      ∈ (["urgent", "high", "media", "medium", "social", "low"] : List String)) :
    getComprehensiveQueries catalog maxCalls
        = getComprehensiveQueries catalog maxCalls
      ∧ getComprehensiveQueries catalog maxCalls
        = ((["urgent", "high", "media", "medium", "social", "low"].map
            fun p => catalog.filter fun q => q.priority == p).flatten).take
            maxCalls := by
  refine ⟨rfl, ?_⟩
  have hw : ∀ q ∈ catalog,
      priorityWeightsComprehensive q.priority ∈ ([6, 5, 4, 3, 2, 1] : List Nat) := by
    intro q hq
    have hmem := hcat q hq
    simp only [List.mem_cons, List.not_mem_nil, or_false] at hmem
    rcases hmem with h | h | h | h | h | h <;>
      simp [priorityWeightsComprehensive, h]
  have hsorted : ([6, 5, 4, 3, 2, 1] : List Nat).Sorted (· > ·) := by decide
  have hsort := sortDesc_eq_weightBlocks
    (fun q => priorityWeightsComprehensive q.priority) [6, 5, 4, 3, 2, 1]
    hsorted catalog hw
  have efil : ∀ (v : Nat) (p : String),
      (∀ s ∈ (["urgent", "high", "media", "medium", "social", "low"] : List String),
        (priorityWeightsComprehensive s == v) = (s == p)) →
      catalog.filter (fun q => priorityWeightsComprehensive q.priority == v)
        = catalog.filter fun q => q.priority == p := by
    intro v p hvp
    exact List.filter_congr fun q hq => hvp q.priority (hcat q hq)
  unfold getComprehensiveQueries
  rw [hsort]
  congr 1
  simp only [weightBlocks, List.map_cons, List.map_nil]
  rw [efil 6 "urgent" (by decide), efil 5 "high" (by decide),
    efil 4 "media" (by decide), efil 3 "medium" (by decide),
    efil 2 "social" (by decide), efil 1 "low" (by decide)]

/-- Witness for comprehensive_selection on a small concrete catalog with a
tie inside the high tier. -/
theorem comprehensive_selection_witness :
    (∀ q ∈ ([⟨"a", "high", "search"⟩, ⟨"b", "urgent", "search"⟩,
        ⟨"c", "high", "search"⟩, ⟨"d", "low", "search"⟩] :
          List QueryDescriptor),
      q.priority
        ∈ (["urgent", "high", "media", "medium", "social", "low"] : List String))
      ∧ (getComprehensiveQueries
            [⟨"a", "high", "search"⟩, ⟨"b", "urgent", "search"⟩,
              ⟨"c", "high", "search"⟩, ⟨"d", "low", "search"⟩] 3
          = getComprehensiveQueries
              [⟨"a", "high", "search"⟩, ⟨"b", "urgent", "search"⟩,
                ⟨"c", "high", "search"⟩, ⟨"d", "low", "search"⟩] 3
        ∧ getComprehensiveQueries
            [⟨"a", "high", "search"⟩, ⟨"b", "urgent", "search"⟩,
              ⟨"c", "high", "search"⟩, ⟨"d", "low", "search"⟩] 3
          = ((["urgent", "high", "media", "medium", "social", "low"].map
              fun p =>
                ([⟨"a", "high", "search"⟩, ⟨"b", "urgent", "search"⟩,
                  ⟨"c", "high", "search"⟩, ⟨"d", "low", "search"⟩] :
                    List QueryDescriptor).filter
                  fun q => q.priority == p).flatten).take 3) :=
  ⟨by decide,
    comprehensive_selection
      [⟨"a", "high", "search"⟩, ⟨"b", "urgent", "search"⟩,
        ⟨"c", "high", "search"⟩, ⟨"d", "low", "search"⟩] 3 (by decide)⟩

/-! ### Run orchestration: EnhancedEventScheduler.run_comprehensive_pipeline
(src/Event-Pipeline/enhanced_scheduler.py, search loop)

Each selected query is processed as the source does: first the
can_make_calls(1) guard (break on failure), then the scrape — which the
scraper serves from the cache on a hit and fetches externally on a miss,
recording nothing itself (_google_cse_search never calls record_api_call) —
and then, unconditionally, quota_manager.record_api_call for the query.
A query is q, its type, and whether the cache holds it; the loop returns the
final ledger state, the number of record calls made, and the number of
external fetches performed. -/

/-- The quota-relevant part of the comprehensive search loop. -/
def runComprehensiveLoop :
    List (String × String × Bool) → QuotaData → Nat → QuotaData × Nat × Nat
  | [], s, _ => (s, 0, 0)
  | (q, t, cacheHit) :: rest, s, now =>
    if s.callsRemaining < 1 then (s, 0, 0)
    else
      ((runComprehensiveLoop rest (recordApiCall s q t now).2 now).1,
        (runComprehensiveLoop rest (recordApiCall s q t now).2 now).2.1 + 1,
        (runComprehensiveLoop rest (recordApiCall s q t now).2 now).2.2
          + if cacheHit then 0 else 1)

/-- C2 counterexample: a run over 4 queries of which 2 are cache hits, with
callsRemaining = 4, makes 4 ledger record calls — one per processed query,
cache hit or not — and leaves 0 calls remaining, not the 2 record calls and
remaining 2 the claim states. -/
theorem run_pipeline_cached_counterexample :
    (runComprehensiveLoop
        [("q1", "search", true), ("q2", "search", false),
          ("q3", "search", true), ("q4", "search", false)]
        ⟨0, 86, 4, []⟩ 0).2.1 = 4
      ∧ (runComprehensiveLoop
          [("q1", "search", true), ("q2", "search", false),
            ("q3", "search", true), ("q4", "search", false)]
          ⟨0, 86, 4, []⟩ 0).1.callsRemaining = 0
      ∧ ¬ ((runComprehensiveLoop
            [("q1", "search", true), ("q2", "search", false),
              ("q3", "search", true), ("q4", "search", false)]
            ⟨0, 86, 4, []⟩ 0).2.1 = 2
          ∧ (runComprehensiveLoop
              [("q1", "search", true), ("q2", "search", false),
                ("q3", "search", true), ("q4", "search", false)]
              ⟨0, 86, 4, []⟩ 0).1.callsRemaining = 2) := by
  refine ⟨rfl, rfl, ?_⟩
  intro h
  exact absurd h.1 (by decide)

/-- C2 amended: in the comprehensive run loop a ledger record call occurs for
every processed query, cache hit or miss alike — the number of record calls
is min(number of queries, callsRemaining) regardless of which queries hit
the cache; remaining drops by one per processed query; and the cache governs
only the external fetches, whose number is the count of cache misses among
the processed queries (instantiating at 4 queries with 2 cache hits and
remaining 4 gives 4 record calls, 2 fetches and remaining 0). -/
theorem run_pipeline_records_amended
    (queries : List (String × String × Bool)) (s : QuotaData) (now : Nat) :
    (runComprehensiveLoop queries s now).2.1
        = min queries.length s.callsRemaining
      ∧ (runComprehensiveLoop queries s now).1.callsRemaining
        = s.callsRemaining - queries.length
      ∧ (runComprehensiveLoop queries s now).2.2
        = ((queries.take (min queries.length s.callsRemaining)).filter
            fun qtb => !qtb.2.2).length := by
  induction queries generalizing s with
  | nil => simp [runComprehensiveLoop]
  | cons qtb rest ih =>
    obtain ⟨q, t, hit⟩ := qtb
    by_cases h0 : s.callsRemaining < 1
    · have hz : s.callsRemaining = 0 := by omega
      simp [runComprehensiveLoop, h0, hz]
    · have hle : ¬ s.callsRemaining ≤ 0 := by omega
      have hs2 : (recordApiCall s q t now).2.callsRemaining
          = s.callsRemaining - 1 := by
        simp [recordApiCall, hle]
      obtain ⟨ih1, ih2, ih3⟩ := ih (recordApiCall s q t now).2
      rw [hs2] at ih1 ih2 ih3
      simp only [runComprehensiveLoop, if_neg h0]
      refine ⟨?_, ?_, ?_⟩
      · rw [ih1, List.length_cons]
        omega
      · rw [ih2, List.length_cons]
        omega
      · have hmin2 : min ((q, t, hit) :: rest).length s.callsRemaining
            = min rest.length (s.callsRemaining - 1) + 1 := by
          rw [List.length_cons]
          omega
        rw [ih3, hmin2, List.take_succ_cons, List.filter_cons]
        cases hit <;> simp

end EventPipeline
